import Mathlib

/-!
Verification of the per-chain monitoring loop of `src/monitor/monitor.ts`
(ChainMonitor): the adaptive block-polling control loop, the bounded-retry
bytecode fetch, contract-creation detection and the stop lifecycle.

The TypeScript code is shallowly embedded as pure step functions. Everything
the code obtains from the outside world (the block returned by
`web3Provider.eth.getBlock`, the bytecode returned by `eth.getCode`, the
result of the external `ethers`/`cborDecode` helpers) is passed in as an
explicit argument, so one invocation of a callback becomes one application of
a step function. JS numbers are modelled as exact rationals (`ℚ`); block
heights are `Nat`; the signed retry counter (`retriesLeft-- <= 0`) is `Int`.
A promise rejection is a distinguished constructor of the response type, and
an exception thrown by a callback is modelled by `Except`-valued helpers.
`setTimeout` scheduling is modelled by returning the list of tasks that the
step registered; `mySetTimeout` drops the task when `running` is false,
exactly as in the source.
-/

namespace Monitor

/-- Configuration derived from the environment in `monitor.ts` lines 14-16 and
the `ChainMonitor` constructor lines 44-46.  Each field keeps the source name;
the value recorded in `defaultConfig` is the `||`-fallback default. -/
structure MonitorConfig where
  blockPauseFactor : ℚ
  blockPauseUpperLimit : ℚ
  blockPauseLowerLimit : ℚ
  getBytecodeRetryPause : ℚ
  getBlockPause : ℚ
  initialGetBytecodeTries : Int
deriving DecidableEq

/-- The defaults of `monitor.ts`: `BLOCK_PAUSE_FACTOR = 1.1`,
`BLOCK_PAUSE_UPPER_LIMIT = 30*1000`, `BLOCK_PAUSE_LOWER_LIMIT = 0.5*1000`,
`GET_BYTECODE_RETRY_PAUSE = 5*1000`, `GET_BLOCK_PAUSE = 10*1000`,
`INITIAL_GET_BYTECODE_TRIES = 3`. -/
def defaultConfig : MonitorConfig :=
  { blockPauseFactor := 11 / 10
  , blockPauseUpperLimit := 30 * 1000
  , blockPauseLowerLimit := 500
  , getBytecodeRetryPause := 5 * 1000
  , getBlockPause := 10 * 1000
  , initialGetBytecodeTries := 3 }

/-- A transaction as the monitor sees it (`web3-core` `Transaction`).
`recipient` models the source's `tx.to` field (`to` is a reserved token in
Lean): `none` is a JS `null`/`undefined` recipient and `some s` a string
recipient; the JS falsy test `!tx.to` is true for `none` and for `some ""`.
`sender` is `tx.from` and `nonce` the sender's transaction count, the two
fields `ethers.utils.getContractAddress` consumes. -/
structure Transaction where
  recipient : Option String
  sender : String
  nonce : Nat
deriving DecidableEq

/-- `createsContract` (monitor.ts line 18): `return !tx.to` — true exactly
when the recipient is absent (`null`/`undefined`) or the empty string. -/
def createsContract (tx : Transaction) : Bool :=
  match tx.recipient with
  | none => true
  | some s => s == ""

/-- A block with full transaction bodies, as returned by
`getBlock(blockNumber, true)`. -/
structure Block where
  transactions : List Transaction
deriving DecidableEq

/-- Outcome of the `getBlock` provider call: a truthy block, a falsy
(`null`) block, or a rejected promise. -/
inductive FetchResult where
  | success (b : Block)
  | notFound
  | providerError
deriving DecidableEq

/-- Modelled from the spec: `ethers.utils.getContractAddress` is an external
library call, out of scope per spec §4.2 — "the deployed contract's address
is computed deterministically from the sender address and sender's
transaction count at send time".  It is embedded as an arbitrary pure
`derivation` applied to exactly the `(sender, nonce)` pair of the
transaction, which is all the claims about it need. -/
def getContractAddress (derivation : String → Nat → String) (tx : Transaction) : String :=
  derivation tx.sender tx.nonce

/-- `mySetTimeout` (monitor.ts lines 132-136): registers the task only while
`running` is true.  The returned list is the list of newly scheduled tasks. -/
def mySetTimeout {α : Type} (running : Bool) (task : α) : List α :=
  match running with
  | true => [task]
  | false => []

/-- The `for (const tx of block.transactions)` loop of `processBlock`
(lines 80-85).  `derive tx` is the result of `ethers.utils.getContractAddress
(tx)`: `.ok a` a returned address, `.error` a thrown exception.  The result
is the list of addresses handed to `processBytecode`, in block order, paired
with `true` when the loop was aborted by an exception (in which case the
addresses dispatched before the throw are still in the list, and
`blockNumber++` never runs). -/
def scanTransactions (derive : Transaction → Except String String) :
    List Transaction → List String × Bool
  | [] => ([], false)
  | tx :: rest =>
    if createsContract tx then
      match derive tx with
      | .ok a =>
        let p := scanTransactions derive rest
        (a :: p.1, p.2)
      | .error _ => ([], true)
    else
      scanTransactions derive rest

/-- A delayed `processBlock` invocation registered through `mySetTimeout`. -/
structure BlockTask where
  height : Nat
  delay : ℚ
deriving DecidableEq

/-- Everything one settled invocation of `processBlock` did: the new value of
`this.getBlockPause`, the value of `blockNumber` at the `finally` clause, the
`processBytecode(address, initialGetBytecodeTries)` dispatches made while
scanning, and the tasks scheduled by the `finally` clause's `mySetTimeout`. -/
structure BlockStepResult where
  getBlockPause : ℚ
  nextHeight : Nat
  dispatched : List (String × Int)
  scheduled : List BlockTask
deriving DecidableEq

/-- `processBlock` (monitor.ts lines 65-94) for one settled `getBlock`
promise.
* `notFound` (falsy block): multiply the pause by the factor, clamp at the
  upper limit, return — the `finally` reschedules the same height.
* a fulfilled block: divide the pause by the factor, clamp at the lower
  limit, run the transaction scan, and only if the scan did not throw run
  `blockNumber++`; the `finally` reschedules `blockNumber` after the new
  pause (a scan exception is caught by the `.catch`, so it also ends in
  `finally`).
* `providerError` (rejected promise): the `.catch` only logs; the `finally`
  reschedules the same height after the unchanged pause. -/
def processBlock (cfg : MonitorConfig) (derive : Transaction → Except String String)
    (running : Bool) (pause : ℚ) (blockNumber : Nat) (res : FetchResult) :
    BlockStepResult :=
  match res with
  | .notFound =>
    let p := min (pause * cfg.blockPauseFactor) cfg.blockPauseUpperLimit
    { getBlockPause := p
    , nextHeight := blockNumber
    , dispatched := []
    , scheduled := mySetTimeout running ⟨blockNumber, p⟩ }
  | .providerError =>
    { getBlockPause := pause
    , nextHeight := blockNumber
    , dispatched := []
    , scheduled := mySetTimeout running ⟨blockNumber, pause⟩ }
  | .success b =>
    let p := max (pause / cfg.blockPauseFactor) cfg.blockPauseLowerLimit
    let scan := scanTransactions derive b.transactions
    let h := if scan.2 then blockNumber else blockNumber + 1
    { getBlockPause := p
    , nextHeight := h
    , dispatched := scan.1.map (fun a => (a, cfg.initialGetBytecodeTries))
    , scheduled := mySetTimeout running ⟨h, p⟩ }

/-- The mutable poll state of one running `ChainMonitor`: the next block
height to request and `this.getBlockPause`. -/
structure LoopState where
  height : Nat
  getBlockPause : ℚ
deriving DecidableEq

/-- One iteration of the running poll loop: request `s.height`, obtain
`res`, let `processBlock` update the state. -/
def blockStep (cfg : MonitorConfig) (derive : Transaction → Except String String)
    (s : LoopState) (res : FetchResult) : LoopState :=
  let out := processBlock cfg derive true s.getBlockPause s.height res
  ⟨out.nextHeight, out.getBlockPause⟩

/-- The poll loop run over a whole sequence of provider responses. -/
def runBlocks (cfg : MonitorConfig) (derive : Transaction → Except String String)
    (s : LoopState) (l : List FetchResult) : LoopState :=
  l.foldl (blockStep cfg derive) s

/-- Outcome of the `getCode` provider call: the returned bytecode (already
converted from hex, so `"0x"` is the empty list) or a rejected promise. -/
inductive CodeResult where
  | code (bytes : List Nat)
  | fetchError
deriving DecidableEq

/-- What one settled invocation of `processBytecode` decided for the
candidate:
* `dropped` — `retriesLeft-- <= 0` returned before any fetch;
* `retryScheduled r` — empty code or rejected fetch, rescheduled with the
  decremented counter `r`;
* `handedOff p` — non-empty code and `cborDecode`/`SourceAddress.fromCborData`
  produced the metadata pointer `p`, handed to `sourceFetcher.assemble`;
* `abandoned m` — non-empty code but metadata decoding threw `m`; the
  `catch` logs and the candidate is abandoned. -/
inductive ByteOutcome where
  | dropped
  | retryScheduled (retriesLeft : Int)
  | handedOff (pointer : String)
  | abandoned (msg : String)
deriving DecidableEq

/-- Result of one `processBytecode` invocation: whether `getCode` was called
at all, the decision taken, and the `(address, retriesLeft, delay)` retry
tasks scheduled through `mySetTimeout`. -/
structure ByteStepResult where
  fetchAttempted : Bool
  outcome : ByteOutcome
  scheduled : List (String × Int × ℚ)
deriving DecidableEq

/-- `processBytecode` (monitor.ts lines 96-130).  `if (retriesLeft-- <= 0)
return;` tests the incoming value and leaves `retriesLeft - 1` for the
reschedules.  `extract` models the (external) `cborDecode` plus
`SourceAddress.fromCborData` pair applied to the non-empty bytecode: `.ok` a
decoded metadata pointer, `.error` a thrown decoding exception, which the
surrounding `try`/`catch` turns into a log line — never a reschedule. -/
def processBytecode (cfg : MonitorConfig) (extract : List Nat → Except String String)
    (running : Bool) (address : String) (retriesLeft : Int) (res : CodeResult) :
    ByteStepResult :=
  if retriesLeft ≤ 0 then
    { fetchAttempted := false, outcome := .dropped, scheduled := [] }
  else
    let r := retriesLeft - 1
    match res with
    | .fetchError =>
      { fetchAttempted := true
      , outcome := .retryScheduled r
      , scheduled := mySetTimeout running (address, r, cfg.getBytecodeRetryPause) }
    | .code bs =>
      if bs = [] then
        { fetchAttempted := true
        , outcome := .retryScheduled r
        , scheduled := mySetTimeout running (address, r, cfg.getBytecodeRetryPause) }
      else
        match extract bs with
        | .ok ptr =>
          { fetchAttempted := true, outcome := .handedOff ptr, scheduled := [] }
        | .error m =>
          { fetchAttempted := true, outcome := .abandoned m, scheduled := [] }

/-- Total number of `getCode` calls performed for one candidate: the chain of
invocations started by `processBytecode(address, R)` followed along its
reschedules, fed by the list `l` of provider responses (one per attempt the
chain makes). -/
def bytecodeFetchCount (cfg : MonitorConfig) (extract : List Nat → Except String String)
    (address : String) : Int → List CodeResult → Nat
  | _, [] => 0
  | r, res :: rest =>
    let out := processBytecode cfg extract true address r res
    (if out.fetchAttempted then 1 else 0) +
      (match out.outcome with
       | .retryScheduled r2 => bytecodeFetchCount cfg extract address r2 rest
       | _ => 0)

/-- The monitor-level state the lifecycle methods touch. -/
structure ChainMonitorState where
  running : Bool
  getBlockPause : ℚ
  nextBlockHeight : Nat
deriving DecidableEq

/-- `stop` (monitor.ts lines 61-63): `this.running = false`. -/
def stop (s : ChainMonitorState) : ChainMonitorState :=
  { s with running := false }

/-! ### Helper lemmas -/

/-- One poll-loop iteration never decreases the height, whatever the
provider returned and even when the transaction scan threw. -/
theorem blockStep_height_le (cfg : MonitorConfig)
    (derive : Transaction → Except String String) (s : LoopState)
    (res : FetchResult) : s.height ≤ (blockStep cfg derive s res).height := by
  cases res with
  | success b =>
    cases hsc : (scanTransactions derive b.transactions).2 <;>
      simp [blockStep, processBlock, hsc]
  | notFound => exact le_refl _
  | providerError => exact le_refl _

/-- The poll loop never decreases the height over any response sequence. -/
theorem runBlocks_height_le (cfg : MonitorConfig)
    (derive : Transaction → Except String String) (s : LoopState)
    (l : List FetchResult) : s.height ≤ (runBlocks cfg derive s l).height := by
  induction l generalizing s with
  | nil => exact le_refl _
  | cons res rest ih =>
    exact le_trans (blockStep_height_le cfg derive s res)
      (ih (blockStep cfg derive s res))

/-- Powers of a factor that is at least one stay at least one. -/
theorem one_le_pow_factor {f : ℚ} (hf : 1 ≤ f) (N : Nat) : 1 ≤ f ^ N := by
  induction N with
  | zero => simp
  | succ n ih =>
    rw [pow_succ]
    exact le_trans ih (le_mul_of_one_le_right (le_trans zero_le_one ih) hf)

/-- After `N` consecutive `null`-block responses the pause is the initial
pause times the factor to the `N`, clamped at the upper limit. -/
theorem runBlocks_notFound_pause (cfg : MonitorConfig)
    (derive : Transaction → Except String String)
    (hf : 1 ≤ cfg.blockPauseFactor) (hU0 : 0 ≤ cfg.blockPauseUpperLimit)
    (N : Nat) :
    ∀ s : LoopState, s.getBlockPause ≤ cfg.blockPauseUpperLimit →
      (runBlocks cfg derive s (List.replicate N .notFound)).getBlockPause =
        min (s.getBlockPause * cfg.blockPauseFactor ^ N)
          cfg.blockPauseUpperLimit := by
  induction N with
  | zero =>
    intro s hu
    simp [runBlocks, min_eq_left hu]
  | succ N ih =>
    intro s hu
    have hrep : List.replicate (N + 1) FetchResult.notFound =
        FetchResult.notFound :: List.replicate N FetchResult.notFound :=
      List.replicate_succ _ _
    rw [hrep]
    have hstep :
        runBlocks cfg derive s
            (FetchResult.notFound :: List.replicate N FetchResult.notFound) =
          runBlocks cfg derive (blockStep cfg derive s .notFound)
            (List.replicate N FetchResult.notFound) := rfl
    have hpause : (blockStep cfg derive s .notFound).getBlockPause =
        min (s.getBlockPause * cfg.blockPauseFactor)
          cfg.blockPauseUpperLimit := rfl
    rw [hstep, ih _ (by rw [hpause]; exact min_le_right _ _), hpause]
    have hfn : (0:ℚ) ≤ cfg.blockPauseFactor ^ N :=
      pow_nonneg (le_trans zero_le_one hf) N
    have h1n : (1:ℚ) ≤ cfg.blockPauseFactor ^ N := one_le_pow_factor hf N
    rw [min_mul_of_nonneg _ _ hfn, min_assoc,
      min_eq_right (le_mul_of_one_le_right hU0 h1n), mul_assoc, ← pow_succ']

/-- One poll-loop iteration keeps the pause inside
`[blockPauseLowerLimit, blockPauseUpperLimit]`. -/
theorem blockStep_pause_bounded (cfg : MonitorConfig)
    (derive : Transaction → Except String String) (s : LoopState)
    (res : FetchResult)
    (hf : 1 ≤ cfg.blockPauseFactor) (hL0 : 0 ≤ cfg.blockPauseLowerLimit)
    (hLU : cfg.blockPauseLowerLimit ≤ cfg.blockPauseUpperLimit)
    (hl : cfg.blockPauseLowerLimit ≤ s.getBlockPause)
    (hu : s.getBlockPause ≤ cfg.blockPauseUpperLimit) :
    cfg.blockPauseLowerLimit ≤ (blockStep cfg derive s res).getBlockPause ∧
    (blockStep cfg derive s res).getBlockPause ≤
      cfg.blockPauseUpperLimit := by
  have hp0 : (0:ℚ) ≤ s.getBlockPause := le_trans hL0 hl
  cases res with
  | notFound =>
    constructor
    · exact le_min (le_trans hl (le_mul_of_one_le_right hp0 hf)) hLU
    · exact min_le_right _ _
  | providerError => exact ⟨hl, hu⟩
  | success b =>
    constructor
    · exact le_max_right _ _
    · exact max_le (le_trans (div_le_self hp0 hf) hu) hLU

/-- The pause bound is preserved over any sequence of provider responses. -/
theorem runBlocks_pause_bounded (cfg : MonitorConfig)
    (derive : Transaction → Except String String)
    (hf : 1 ≤ cfg.blockPauseFactor) (hL0 : 0 ≤ cfg.blockPauseLowerLimit)
    (hLU : cfg.blockPauseLowerLimit ≤ cfg.blockPauseUpperLimit)
    (l : List FetchResult) :
    ∀ s : LoopState, cfg.blockPauseLowerLimit ≤ s.getBlockPause →
      s.getBlockPause ≤ cfg.blockPauseUpperLimit →
      cfg.blockPauseLowerLimit ≤ (runBlocks cfg derive s l).getBlockPause ∧
      (runBlocks cfg derive s l).getBlockPause ≤
        cfg.blockPauseUpperLimit := by
  induction l with
  | nil => intro s hl hu; exact ⟨hl, hu⟩
  | cons res rest ih =>
    intro s hl hu
    have hstep := blockStep_pause_bounded cfg derive s res hf hL0 hLU hl hu
    exact ih (blockStep cfg derive s res) hstep.1 hstep.2

end Monitor

namespace Monitor

/-! ### Claim theorems -/

/-- C1: for a given ChainMonitor the next block height polled is
monotonically non-decreasing: one poll-loop iteration advances it by exactly
one when the block was retrieved (and the transaction scan completed),
leaves it unchanged on a `null` block and on a rejected provider call, and
over every response sequence the height never decreases. -/
theorem c1_nextBlockHeight_monotone (cfg : MonitorConfig)
    (derive : Transaction → Except String String) (s : LoopState) :
    (∀ b : Block, (scanTransactions derive b.transactions).2 = false →
      (blockStep cfg derive s (.success b)).height = s.height + 1) ∧
    (blockStep cfg derive s .notFound).height = s.height ∧
    (blockStep cfg derive s .providerError).height = s.height ∧
    (∀ res : FetchResult, s.height ≤ (blockStep cfg derive s res).height) ∧
    (∀ l : List FetchResult, s.height ≤ (runBlocks cfg derive s l).height) := by
  refine ⟨?_, rfl, rfl, blockStep_height_le cfg derive s,
    runBlocks_height_le cfg derive s⟩
  intro b hsc
  simp [blockStep, processBlock, hsc]

/-- Witness for C1 at a concrete input: a one-transaction block retrieved at
height 100 advances the height to 101. -/
theorem c1_nextBlockHeight_monotone_witness :
    (blockStep defaultConfig (fun tx => Except.ok tx.sender) ⟨100, 10000⟩
      (.success ⟨[⟨none, "alice", 5⟩]⟩)).height = 101 :=
  (c1_nextBlockHeight_monotone defaultConfig (fun tx => Except.ok tx.sender)
    ⟨100, 10000⟩).1 ⟨[⟨none, "alice", 5⟩]⟩ rfl

/-- C5: a rejected `getBlock` promise is a no-op retry — the pause is
unchanged, nothing is dispatched, and the same height is rescheduled after
the unchanged pause. -/
theorem c5_providerError_noop (cfg : MonitorConfig)
    (derive : Transaction → Except String String) (pause : ℚ) (h : Nat) :
    processBlock cfg derive true pause h .providerError =
      { getBlockPause := pause
      , nextHeight := h
      , dispatched := []
      , scheduled := [⟨h, pause⟩] } := rfl

/-- C7: after `stop()` the running flag is false, a second `stop()` is a
no-op, and any previously scheduled `processBlock` or `processBytecode`
invocation that fires afterwards schedules no further work. -/
theorem c7_stop_idempotent (cfg : MonitorConfig)
    (derive : Transaction → Except String String)
    (extract : List Nat → Except String String) (s : ChainMonitorState) :
    (stop s).running = false ∧
    stop (stop s) = stop s ∧
    (∀ (pause : ℚ) (h : Nat) (res : FetchResult),
      (processBlock cfg derive (stop s).running pause h res).scheduled = []) ∧
    (∀ (address : String) (R : Int) (res : CodeResult),
      (processBytecode cfg extract (stop s).running address R res).scheduled
        = []) := by
  refine ⟨rfl, rfl, ?_, ?_⟩
  · intro pause h res
    cases res <;> simp [stop, processBlock, mySetTimeout]
  · intro address R res
    by_cases hR : R ≤ 0
    · simp [stop, processBytecode, hR]
    · cases res with
      | fetchError => simp [stop, processBytecode, hR, mySetTimeout]
      | code bs =>
        by_cases hbs : bs = []
        · simp [stop, processBytecode, hR, hbs, mySetTimeout]
        · cases hx : extract bs <;>
            simp [stop, processBytecode, hR, hbs, hx, mySetTimeout]

/-- C2: after `N` consecutive `null`-block responses the pause equals the
initial pause times `blockPauseFactor ^ N` clamped at the upper limit, hence
never exceeds the upper limit; and each miss reschedules the same height
after the new, grown pause, dispatching nothing. -/
theorem c2_notFound_backoff (cfg : MonitorConfig)
    (derive : Transaction → Except String String) (s : LoopState)
    (hf : 1 ≤ cfg.blockPauseFactor) (hU0 : 0 ≤ cfg.blockPauseUpperLimit)
    (hu : s.getBlockPause ≤ cfg.blockPauseUpperLimit) :
    (∀ N : Nat,
      (runBlocks cfg derive s (List.replicate N .notFound)).getBlockPause =
        min (s.getBlockPause * cfg.blockPauseFactor ^ N)
          cfg.blockPauseUpperLimit ∧
      (runBlocks cfg derive s (List.replicate N .notFound)).getBlockPause ≤
        cfg.blockPauseUpperLimit) ∧
    (∀ (pause : ℚ) (h : Nat),
      processBlock cfg derive true pause h .notFound =
        { getBlockPause :=
            min (pause * cfg.blockPauseFactor) cfg.blockPauseUpperLimit
        , nextHeight := h
        , dispatched := []
        , scheduled :=
            [⟨h, min (pause * cfg.blockPauseFactor)
                cfg.blockPauseUpperLimit⟩] }) := by
  refine ⟨fun N => ?_, fun pause h => rfl⟩
  have hmain := runBlocks_notFound_pause cfg derive hf hU0 N s hu
  exact ⟨hmain, hmain.trans_le (min_le_right _ _)⟩

/-- Witness for C2: two misses at the default configuration grow the pause
from 10000 to `min (10000 * (11/10)^2) 30000` = 12100. -/
theorem c2_notFound_backoff_witness :
    (runBlocks defaultConfig (fun _ => Except.error "e") ⟨100, 10000⟩
        (List.replicate 2 FetchResult.notFound)).getBlockPause =
      min (10000 * defaultConfig.blockPauseFactor ^ 2)
        defaultConfig.blockPauseUpperLimit :=
  ((c2_notFound_backoff defaultConfig (fun _ => Except.error "e") ⟨100, 10000⟩
      (by norm_num [defaultConfig]) (by norm_num [defaultConfig])
      (by norm_num [defaultConfig])).1 2).1

/-- C3: a successful block fetch divides the pause by the factor and clamps
at the lower limit, so the pause strictly decreases while above the lower
limit, never goes below it, and stays put once there; the height is advanced
by one and the next poll for the advanced height is scheduled in the same
step using the new pause. -/
theorem c3_success_speedup (cfg : MonitorConfig)
    (derive : Transaction → Except String String) (pause : ℚ) (h : Nat)
    (b : Block)
    (hf : 1 < cfg.blockPauseFactor) (hL0 : 0 ≤ cfg.blockPauseLowerLimit)
    (hscan : (scanTransactions derive b.transactions).2 = false) :
    (processBlock cfg derive true pause h (.success b)).getBlockPause =
      max (pause / cfg.blockPauseFactor) cfg.blockPauseLowerLimit ∧
    cfg.blockPauseLowerLimit ≤
      (processBlock cfg derive true pause h (.success b)).getBlockPause ∧
    (cfg.blockPauseLowerLimit < pause →
      (processBlock cfg derive true pause h (.success b)).getBlockPause <
        pause) ∧
    (pause = cfg.blockPauseLowerLimit →
      (processBlock cfg derive true pause h (.success b)).getBlockPause =
        pause) ∧
    (processBlock cfg derive true pause h (.success b)).nextHeight = h + 1 ∧
    (processBlock cfg derive true pause h (.success b)).scheduled =
      [⟨h + 1,
        (processBlock cfg derive true pause h (.success b)).getBlockPause⟩]
    := by
  have hp : (processBlock cfg derive true pause h (.success b)).getBlockPause
      = max (pause / cfg.blockPauseFactor) cfg.blockPauseLowerLimit := rfl
  refine ⟨hp, ?_, ?_, ?_, ?_, ?_⟩
  · rw [hp]; exact le_max_right _ _
  · intro hLp
    rw [hp]
    exact max_lt (div_lt_self (lt_of_le_of_lt hL0 hLp) hf) hLp
  · intro hEq
    rw [hp, hEq]
    exact max_eq_right (div_le_self hL0 hf.le)
  · simp [processBlock, hscan]
  · simp [processBlock, hscan, mySetTimeout]

/-- Witness for C3: one successful empty block at the default configuration
shrinks the pause from 10000 to `max (10000 / (11/10)) 500` and advances the
height from 7 to 8. -/
theorem c3_success_speedup_witness :
    (processBlock defaultConfig (fun _ => Except.error "e") true 10000 7
        (.success ⟨[]⟩)).getBlockPause =
      max (10000 / defaultConfig.blockPauseFactor)
        defaultConfig.blockPauseLowerLimit ∧
    (processBlock defaultConfig (fun _ => Except.error "e") true 10000 7
        (.success ⟨[]⟩)).nextHeight = 8 :=
  have H := c3_success_speedup defaultConfig (fun _ => Except.error "e")
    10000 7 ⟨[]⟩ (by norm_num [defaultConfig]) (by norm_num [defaultConfig]) rfl
  ⟨H.1, H.2.2.2.2.1⟩

/-- C9: starting from the constructor's pause, as long as the configured
bounds are sane (`1 ≤ factor`, `0 ≤ lower ≤ upper`) and the initial pause
lies within them — as the defaults do — the pause stays in
`[blockPauseLowerLimit, blockPauseUpperLimit]` at construction (empty
response list) and after every adjustment (miss, success or provider
error). -/
theorem c9_pollDelay_bounded (cfg : MonitorConfig)
    (derive : Transaction → Except String String)
    (hf : 1 ≤ cfg.blockPauseFactor) (hL0 : 0 ≤ cfg.blockPauseLowerLimit)
    (hLU : cfg.blockPauseLowerLimit ≤ cfg.blockPauseUpperLimit)
    (hil : cfg.blockPauseLowerLimit ≤ cfg.getBlockPause)
    (hiu : cfg.getBlockPause ≤ cfg.blockPauseUpperLimit) :
    ∀ (h0 : Nat) (l : List FetchResult),
      cfg.blockPauseLowerLimit ≤
        (runBlocks cfg derive ⟨h0, cfg.getBlockPause⟩ l).getBlockPause ∧
      (runBlocks cfg derive ⟨h0, cfg.getBlockPause⟩ l).getBlockPause ≤
        cfg.blockPauseUpperLimit :=
  fun h0 l =>
    runBlocks_pause_bounded cfg derive hf hL0 hLU l
      ⟨h0, cfg.getBlockPause⟩ hil hiu

/-- Witness for C9: at the default configuration the pause stays within
`[500, 30000]` over a miss, a success and a provider error, and at
construction (empty list). -/
theorem c9_pollDelay_bounded_witness :
    (defaultConfig.blockPauseLowerLimit ≤
        (runBlocks defaultConfig (fun _ => Except.error "e")
          ⟨0, defaultConfig.getBlockPause⟩ []).getBlockPause ∧
      (runBlocks defaultConfig (fun _ => Except.error "e")
          ⟨0, defaultConfig.getBlockPause⟩ []).getBlockPause ≤
        defaultConfig.blockPauseUpperLimit) ∧
    (defaultConfig.blockPauseLowerLimit ≤
        (runBlocks defaultConfig (fun _ => Except.error "e")
          ⟨0, defaultConfig.getBlockPause⟩
          [.notFound, .success ⟨[]⟩, .providerError]).getBlockPause ∧
      (runBlocks defaultConfig (fun _ => Except.error "e")
          ⟨0, defaultConfig.getBlockPause⟩
          [.notFound, .success ⟨[]⟩, .providerError]).getBlockPause ≤
        defaultConfig.blockPauseUpperLimit) :=
  have H := c9_pollDelay_bounded defaultConfig (fun _ => Except.error "e")
    (by norm_num [defaultConfig]) (by norm_num [defaultConfig])
    (by norm_num [defaultConfig]) (by norm_num [defaultConfig])
    (by norm_num [defaultConfig])
  ⟨H 0 [], H 0 [.notFound, .success ⟨[]⟩, .providerError]⟩

end Monitor

namespace Monitor

/-- C4: a candidate arriving with `retriesLeft = R ≥ 0` causes at most `R`
`getCode` calls over any sequence of provider responses; with `R = 0` it
causes none, is dropped before any fetch, and each empty-code result or
rejected fetch consumes one retry and reschedules the same address after the
fixed `getBytecodeRetryPause`. -/
theorem c4_bounded_retries (cfg : MonitorConfig)
    (extract : List Nat → Except String String) (address : String) :
    (∀ (l : List CodeResult) (R : Int), 0 ≤ R →
      (bytecodeFetchCount cfg extract address R l : Int) ≤ R) ∧
    (∀ l : List CodeResult, bytecodeFetchCount cfg extract address 0 l = 0) ∧
    (∀ res : CodeResult, processBytecode cfg extract true address 0 res =
      { fetchAttempted := false, outcome := .dropped, scheduled := [] }) ∧
    (∀ R : Int, 0 < R →
      processBytecode cfg extract true address R (.code []) =
        { fetchAttempted := true
        , outcome := .retryScheduled (R - 1)
        , scheduled := [(address, R - 1, cfg.getBytecodeRetryPause)] } ∧
      processBytecode cfg extract true address R .fetchError =
        { fetchAttempted := true
        , outcome := .retryScheduled (R - 1)
        , scheduled := [(address, R - 1, cfg.getBytecodeRetryPause)] }) := by
  have hcount : ∀ (l : List CodeResult) (R : Int), 0 ≤ R →
      (bytecodeFetchCount cfg extract address R l : Int) ≤ R := by
    intro l
    induction l with
    | nil => intro R hR; simpa [bytecodeFetchCount] using hR
    | cons res rest ih =>
      intro R hR
      by_cases h0 : R ≤ 0
      · simp [bytecodeFetchCount, processBytecode, h0]
        omega
      · have h1 : (0:Int) < R := lt_of_not_le h0
        cases res with
        | fetchError =>
          have hrec := ih (R - 1) (by omega)
          simp [bytecodeFetchCount, processBytecode, h0, mySetTimeout]
          omega
        | code bs =>
          by_cases hbs : bs = []
          · have hrec := ih (R - 1) (by omega)
            simp [bytecodeFetchCount, processBytecode, h0, hbs, mySetTimeout]
            omega
          · cases hx : extract bs with
            | ok p =>
              simp [bytecodeFetchCount, processBytecode, h0, hbs, hx]
              omega
            | error m =>
              simp [bytecodeFetchCount, processBytecode, h0, hbs, hx]
              omega
  refine ⟨hcount, ?_, ?_, ?_⟩
  · intro l
    cases l with
    | nil => rfl
    | cons res rest => simp [bytecodeFetchCount, processBytecode]
  · intro res
    simp [processBytecode]
  · intro R hR
    constructor <;> simp [processBytecode, not_le.mpr hR, mySetTimeout]

/-- Witness for C4: with `R = 2` and responses error, empty, non-empty, the
candidate performs exactly 2 fetch attempts, and with `R = 0` it performs
none. -/
theorem c4_bounded_retries_witness :
    bytecodeFetchCount defaultConfig (fun _ => Except.ok "ptr") "0xabc" 2
        [CodeResult.fetchError, CodeResult.code [], CodeResult.code [1]]
      = 2 ∧
    (bytecodeFetchCount defaultConfig (fun _ => Except.ok "ptr") "0xabc" 2
        [CodeResult.fetchError, CodeResult.code [], CodeResult.code [1]]
      : Int) ≤ 2 ∧
    bytecodeFetchCount defaultConfig (fun _ => Except.ok "ptr") "0xabc" 0
        [CodeResult.code [1], CodeResult.code [1]] = 0 :=
  ⟨rfl,
   (c4_bounded_retries defaultConfig (fun _ => Except.ok "ptr") "0xabc").1
     [CodeResult.fetchError, CodeResult.code [], CodeResult.code [1]] 2
     (by decide),
   (c4_bounded_retries defaultConfig (fun _ => Except.ok "ptr") "0xabc").2.1
     [CodeResult.code [1], CodeResult.code [1]]⟩

/-- C6: when `getCode` returns non-empty bytecode the candidate is handed to
metadata extraction and nothing is rescheduled, whatever extraction does: a
decoded pointer is handed off to `sourceFetcher.assemble`, a decoding
exception is caught, logged and the candidate abandoned — in both cases the
step yields a well-defined result with no retry. -/
theorem c6_nonempty_handoff (cfg : MonitorConfig)
    (extract : List Nat → Except String String) (address : String) (R : Int)
    (bs : List Nat) (hR : 0 < R) (hbs : bs ≠ []) :
    (processBytecode cfg extract true address R (.code bs)).scheduled = [] ∧
    (processBytecode cfg extract true address R (.code bs)).fetchAttempted
      = true ∧
    ((∃ p, extract bs = .ok p ∧
        (processBytecode cfg extract true address R (.code bs)).outcome =
          .handedOff p) ∨
     (∃ m, extract bs = .error m ∧
        (processBytecode cfg extract true address R (.code bs)).outcome =
          .abandoned m)) := by
  have h0 : ¬ R ≤ 0 := not_le.mpr hR
  cases hx : extract bs with
  | ok p =>
    refine ⟨?_, ?_, .inl ⟨p, rfl, ?_⟩⟩ <;>
      simp [processBytecode, h0, hbs, hx]
  | error m =>
    refine ⟨?_, ?_, .inr ⟨m, rfl, ?_⟩⟩ <;>
      simp [processBytecode, h0, hbs, hx]

/-- Witness for C6: a failing extractor on the one-byte bytecode `[0xfe]`
leads to abandonment with nothing rescheduled. -/
theorem c6_nonempty_handoff_witness :
    (processBytecode defaultConfig (fun _ => Except.error "malformed") true
        "0xabc" 3 (.code [254])).scheduled = [] ∧
    (processBytecode defaultConfig (fun _ => Except.error "malformed") true
        "0xabc" 3 (.code [254])).outcome = .abandoned "malformed" :=
  have H := c6_nonempty_handoff defaultConfig
    (fun _ => Except.error "malformed") "0xabc" 3 [254] (by decide)
    (by decide)
  ⟨H.1, rfl⟩

end Monitor

namespace Monitor

/-- When the address derivation never throws, the scan dispatches exactly
the creation transactions, in block order. -/
theorem scanTransactions_total (f : Transaction → String) :
    ∀ l : List Transaction,
      scanTransactions (fun tx => Except.ok (f tx)) l =
        ((l.filter createsContract).map f, false) := by
  intro l
  induction l with
  | nil => rfl
  | cons tx rest ih =>
    by_cases hc : createsContract tx <;>
      simp [scanTransactions, hc, ih]

/-- An address dispatched by a scan that later threw is dispatched again by
any rerun of the scan whose derivation agrees on the transactions that
succeeded the first time. -/
theorem scanTransactions_mem_of_agree
    (derive derive2 : Transaction → Except String String)
    (hagree : ∀ tx a, derive tx = .ok a → derive2 tx = .ok a) :
    ∀ (l : List Transaction) (a : String),
      a ∈ (scanTransactions derive l).1 →
      a ∈ (scanTransactions derive2 l).1 := by
  intro l
  induction l with
  | nil => intro a ha; simp [scanTransactions] at ha
  | cons tx rest ih =>
    intro a ha
    by_cases hc : createsContract tx
    · cases hd : derive tx with
      | ok a0 =>
        have hd2 := hagree tx a0 hd
        simp [scanTransactions, hc, hd] at ha
        simp [scanTransactions, hc, hd2]
        rcases ha with rfl | ha
        · exact Or.inl rfl
        · exact Or.inr (ih a ha)
      | error m =>
        simp [scanTransactions, hc, hd] at ha
    · simp [scanTransactions, hc] at ha ⊢
      exact ih a ha

end Monitor

namespace Monitor

/-- C8: a transaction is dispatched as a contract creation iff its recipient
is absent or empty (`!tx.to`); a retrieved block dispatches exactly one
derived address per creation transaction, in block order; and the derived
address is a function of the `(sender, nonce)` pair alone, so identical
pairs give identical addresses. -/
theorem c8_creation_detection (cfg : MonitorConfig)
    (d : String → Nat → String) :
    (∀ tx : Transaction,
      createsContract tx = true ↔
        (tx.recipient = none ∨ tx.recipient = some "")) ∧
    (∀ (b : Block) (pause : ℚ) (h : Nat),
      (processBlock cfg (fun tx => Except.ok (getContractAddress d tx)) true
          pause h (.success b)).dispatched =
        (b.transactions.filter createsContract).map
          (fun tx => (getContractAddress d tx,
            cfg.initialGetBytecodeTries))) ∧
    (∀ tx1 tx2 : Transaction, tx1.sender = tx2.sender →
      tx1.nonce = tx2.nonce →
      getContractAddress d tx1 = getContractAddress d tx2) := by
  refine ⟨?_, ?_, ?_⟩
  · intro tx
    cases htx : tx.recipient with
    | none => simp [createsContract, htx]
    | some s => simp [createsContract, htx]
  · intro b pause h
    simp [processBlock, scanTransactions_total, List.map_map, Function.comp]
  · intro tx1 tx2 hs hn
    simp [getContractAddress, hs, hn]

/-- Witness for C8: with a derivation reading only the sender, a `null`
recipient and an empty-string recipient with the same `(sender, nonce)`
derive the same address, and a one-creation block dispatches exactly that
address with 3 tries. -/
theorem c8_creation_detection_witness :
    getContractAddress (fun s _ => s) ⟨none, "alice", 7⟩ =
      getContractAddress (fun s _ => s) ⟨some "", "alice", 7⟩ ∧
    (processBlock defaultConfig
        (fun tx => Except.ok (getContractAddress (fun s _ => s) tx)) true
        10000 5 (.success ⟨[⟨none, "alice", 7⟩, ⟨some "bob", "x", 0⟩]⟩)
      ).dispatched =
      [("alice", defaultConfig.initialGetBytecodeTries)] :=
  have H := c8_creation_detection defaultConfig (fun s _ => s)
  ⟨H.2.2 ⟨none, "alice", 7⟩ ⟨some "", "alice", 7⟩ rfl rfl,
   (H.2.1 ⟨[⟨none, "alice", 7⟩, ⟨some "bob", "x", 0⟩]⟩ 10000 5).trans rfl⟩

/-- C10: if the transaction scan of a successfully retrieved block throws
after the pause was already shrunk, the height is not advanced and the same
block is rescheduled after the shrunk pause; the candidates dispatched
before the throw stay dispatched, and a rerun of the same block whose
derivation agrees on them dispatches each of them again — at-least-once,
not exactly-once. -/
theorem c10_scan_exception_redispatch (cfg : MonitorConfig)
    (derive derive2 : Transaction → Except String String) (b : Block)
    (pause : ℚ) (h : Nat)
    (hexn : (scanTransactions derive b.transactions).2 = true)
    (hok : (scanTransactions derive2 b.transactions).2 = false)
    (hagree : ∀ tx a, derive tx = .ok a → derive2 tx = .ok a) :
    (processBlock cfg derive true pause h (.success b)).getBlockPause =
      max (pause / cfg.blockPauseFactor) cfg.blockPauseLowerLimit ∧
    (processBlock cfg derive true pause h (.success b)).nextHeight = h ∧
    (processBlock cfg derive true pause h (.success b)).scheduled =
      [⟨h, max (pause / cfg.blockPauseFactor) cfg.blockPauseLowerLimit⟩] ∧
    (processBlock cfg derive2 true
        (processBlock cfg derive true pause h (.success b)).getBlockPause h
        (.success b)).nextHeight = h + 1 ∧
    (∀ c, c ∈ (processBlock cfg derive true pause h (.success b)).dispatched →
      c ∈ (processBlock cfg derive2 true
        (processBlock cfg derive true pause h (.success b)).getBlockPause h
        (.success b)).dispatched) := by
  refine ⟨rfl, ?_, ?_, ?_, ?_⟩
  · simp [processBlock, hexn]
  · simp [processBlock, hexn, mySetTimeout]
  · simp [processBlock, hok]
  · intro c hc
    simp only [processBlock, List.mem_map] at hc ⊢
    rcases hc with ⟨a, ha, rfl⟩
    exact ⟨a, scanTransactions_mem_of_agree derive derive2 hagree
      b.transactions a ha, rfl⟩

/-- Witness for C10: a two-creation block where the derivation throws on the
second transaction dispatches address `A` before the throw, keeps the
height at 100, and a rerun of the same block dispatches `A` a second time. -/
theorem c10_scan_exception_redispatch_witness :
    (processBlock defaultConfig
        (fun tx => if tx.nonce = 0 then Except.ok "A"
          else Except.error "boom") true 10000 100
        (.success ⟨[⟨none, "alice", 0⟩, ⟨none, "bob", 1⟩]⟩)).nextHeight
      = 100 ∧
    ("A", defaultConfig.initialGetBytecodeTries) ∈
      (processBlock defaultConfig
        (fun tx => if tx.nonce = 0 then Except.ok "A"
          else Except.error "boom") true 10000 100
        (.success ⟨[⟨none, "alice", 0⟩, ⟨none, "bob", 1⟩]⟩)).dispatched ∧
    ("A", defaultConfig.initialGetBytecodeTries) ∈
      (processBlock defaultConfig
        (fun tx => if tx.nonce = 0 then Except.ok "A" else Except.ok "B")
        true
        (processBlock defaultConfig
          (fun tx => if tx.nonce = 0 then Except.ok "A"
            else Except.error "boom") true 10000 100
          (.success ⟨[⟨none, "alice", 0⟩, ⟨none, "bob", 1⟩]⟩)).getBlockPause
        100
        (.success ⟨[⟨none, "alice", 0⟩, ⟨none, "bob", 1⟩]⟩)).dispatched :=
  have H := c10_scan_exception_redispatch defaultConfig
    (fun tx => if tx.nonce = 0 then Except.ok "A" else Except.error "boom")
    (fun tx => if tx.nonce = 0 then Except.ok "A" else Except.ok "B")
    ⟨[⟨none, "alice", 0⟩, ⟨none, "bob", 1⟩]⟩ 10000 100 rfl rfl
    (by
      intro tx a hd
      by_cases h0 : tx.nonce = 0
      · simp [h0] at hd ⊢
        exact hd
      · simp [h0] at hd)
  have hmem : ("A", defaultConfig.initialGetBytecodeTries) ∈
      (processBlock defaultConfig
        (fun tx => if tx.nonce = 0 then Except.ok "A"
          else Except.error "boom") true 10000 100
        (.success ⟨[⟨none, "alice", 0⟩, ⟨none, "bob", 1⟩]⟩)).dispatched := by
    simp [processBlock, scanTransactions, createsContract]
  ⟨H.2.1, hmem, H.2.2.2.2 _ hmem⟩

end Monitor
